import Mathlib

/-!
# Verification of the Annadata core pipeline

A shallow embedding of the core components of the Annadata repository
(feature engineering, baseline training harness, quantum variational
estimator configuration, and the model registry), together with theorems
settling the specification's claims against the code.

Conventions:
* Python floats are modelled as rationals (`ℚ`); `float('inf')` as `⊤`
  in `WithTop ℚ`; real-valued transcendental operations (`np.log1p`) as
  real functions built from `Real.log`.
* Python dicts keyed by strings are modelled as association lists in
  insertion order (Python dicts preserve insertion order).
* Exceptions are modelled with `Except String`; a function that the source
  cannot make raise is total (or always returns `.ok`).
-/

namespace Annadata

/-! ## Model registry (src/models/classical/model_registry.py) -/

/-- One registry entry, mirroring the dict written by
`ModelRegistry.register_model`: `{name, type, dataset, path, metrics,
created_at, description, status}`.  Metric values are rationals. -/
structure Entry where
  name : String
  type : String
  dataset : String
  path : String
  metrics : List (String × ℚ)
  createdAt : String
  description : String
  status : String
deriving DecidableEq, Repr

/-- The registry document: model name ↦ entry, in insertion order. -/
abbrev Registry := List (String × Entry)

/-- Python dict assignment `self.registry[model_name] = {...}`: overwrite in
place if the key exists (keeping its position), else append at the end. -/
def dictInsert (reg : Registry) (k : String) (v : Entry) : Registry :=
  if reg.any (fun p => p.1 == k) then
    reg.map (fun p => if p.1 == k then (k, v) else p)
  else
    reg ++ [(k, v)]

/-- `ModelRegistry.register_model`: builds the entry dict (status always
`"active"`) and stores it under `model_name`; `save_registry` then persists
exactly this registry as the document. -/
def registerModel (reg : Registry) (modelName modelType : String)
    (metrics : List (String × ℚ)) (modelPath : String)
    (dataset : String) (description : String) (createdAt : String) : Registry :=
  dictInsert reg modelName
    { name := modelName
      type := modelType
      dataset := dataset
      path := modelPath
      metrics := metrics
      createdAt := createdAt
      description := description
      status := "active" }

/-- `ModelRegistry.load_registry`: the outer `Option` is whether the file at
`registry_path` exists; the inner `Option` is whether its contents parse as
JSON.  A missing file and a file whose parse raises both yield the empty
registry (the `except` branch returns `{}`). -/
def loadRegistry (fileContents : Option (Option Registry)) : Registry :=
  match fileContents with
  | none => []
  | some none => []
  | some (some reg) => reg

/-- The dataset filter of `ModelRegistry.list_models`: Python
`if dataset and info.get('dataset') != dataset: continue` — a `None` or
empty-string `dataset` disables the filter (string truthiness). -/
def datasetPass (dataset : Option String) (e : Entry) : Bool :=
  match dataset with
  | none => true
  | some d => d == "" || e.dataset == d

/-- The status filter of `ModelRegistry.list_models`: an empty `status`
string disables the filter. -/
def statusPass (status : String) (e : Entry) : Bool :=
  status == "" || e.status == status

/-- `ModelRegistry.list_models`: keeps entries passing both filters, in
registry (insertion) order. -/
def listModels (reg : Registry) (dataset : Option String) (status : String) :
    Registry :=
  reg.filter (fun p => statusPass status p.2 && datasetPass dataset p.2)

/-- `metrics.get(metric, float('inf'))`: a missing metric key reads as
positive infinity. -/
def metricValue (e : Entry) (metric : String) : WithTop ℚ :=
  match e.metrics.lookup metric with
  | some v => (v : WithTop ℚ)
  | none => ⊤

/-- Python's `min(items, key=...)` on a list: `none` on the empty list,
otherwise the first element whose key is minimal (later elements replace the
accumulator only on strictly smaller keys). -/
def pyMin {α : Type} (key : α → WithTop ℚ) : List α → Option α
  | [] => none
  | x :: xs => some (xs.foldl (fun acc y => if key y < key acc then y else acc) x)

/-- `ModelRegistry.get_best_model`: filters to active entries for the dataset
(`list_models(dataset=dataset)`, status defaulting to `"active"`), returns the
`(None, None)` not-found signal (here `none`) when the filter is empty, else
the minimum by `metrics.get(metric, float('inf'))`. -/
def getBestModel (reg : Registry) (dataset : String) (metric : String) :
    Option (String × Entry) :=
  pyMin (fun p => metricValue p.2 metric) (listModels reg (some dataset) "active")

/-! ## Quantum variational estimator (src/models/quantum/vqr_crop_yield.py) -/

/-- The configuration state produced by `QuantumCropYieldRegressor.__init__`.
`vqr`/`pca` start unfitted (`None`). -/
structure QVRState where
  numQubits : ℕ
  featureMapReps : ℕ
  ansatzReps : ℕ
  maxIterations : ℕ
  featureCompression : Bool
  targetFeatures : ℕ
  vqr : Option Unit
  pca : Option Unit
  trainingTime : ℕ
deriving DecidableEq, Repr

/-- `QuantumCropYieldRegressor.__init__`.  The `Except` return type records
that construction could in principle raise; the source body contains no
`raise` — on a `num_qubits`/`target_features` mismatch it silently sets
`self.num_qubits = self.target_features` and continues. -/
def initQCYR (numQubits featureMapReps ansatzReps maxIterations : ℕ)
    (featureCompression : Bool) (targetFeatures : ℕ) : Except String QVRState :=
  Except.ok
    { numQubits := if numQubits ≠ targetFeatures then targetFeatures else numQubits
      featureMapReps := featureMapReps
      ansatzReps := ansatzReps
      maxIterations := maxIterations
      featureCompression := featureCompression
      targetFeatures := targetFeatures
      vqr := none
      pca := none
      trainingTime := 0 }

/-- A matrix of rationals (rows of features). -/
abbrev Mat := List (List ℚ)

/-- A fitted PCA projection, abstracted as a function on matrices. -/
abbrev PCAFun := Mat → Mat

/-- `QuantumCropYieldRegressor.compress_features`, in state-passing form.
`fitPCA` abstracts `PCA(...).fit_transform` (returns the fitted projection and
the compressed matrix).  With `fit=False` and no fitted PCA the source does
`return X` — the input passes through untransformed, with no exception. -/
def compressFeatures (fitPCA : Mat → PCAFun × Mat)
    (featureCompression : Bool) (pca : Option PCAFun) (X : Mat) (fit : Bool) :
    Option PCAFun × Mat :=
  if featureCompression = false then (pca, X)
  else if fit then
    let r := fitPCA X
    (some r.1, r.2)
  else
    match pca with
    | none => (pca, X)
    | some p => (pca, p X)

/-- `QuantumCropYieldRegressor.predict`: raises `ValueError("Model not
trained")` when `self.vqr is None`; otherwise scales, compresses, predicts and
inverse-transforms.  The fitted pipeline is abstracted as a function. -/
def qcyrPredict (vqr : Option (Mat → List ℚ)) (pipeline : Mat → Mat) (X : Mat) :
    Except String (List ℚ) :=
  match vqr with
  | none => Except.error "Model not trained"
  | some f => Except.ok (f (pipeline X))

/-! ## Baseline training harness (src/models/classical/crop_baseline_models.py) -/

/-- The metric record stored in `self.results[model_name]`. -/
structure Metrics where
  trainMse : ℚ
  testMse : ℚ
  trainR2 : ℚ
  testR2 : ℚ
  trainMae : ℚ
  testMae : ℚ
  cvMse : ℚ
  cvStd : ℚ
deriving DecidableEq, Repr

/-- `CropBaselines.train_and_evaluate`.  Each estimator's fit/predict/score is
abstracted as an outcome (`.ok` metrics, or `.error` the exception message).
The source iterates the roster inside a single `try` whose `except` logs and
`raise`s: processing stops at the first failing estimator, the exception
propagates, and only the results recorded before the failure survive in
`self.results`.  Returns (recorded results, propagated exception if any). -/
def trainAndEvaluate (outcomes : List (String × Except String Metrics)) :
    List (String × Metrics) × Option String :=
  match outcomes with
  | [] => ([], none)
  | (name, Except.ok m) :: rest =>
    let r := trainAndEvaluate rest
    ((name, m) :: r.1, r.2)
  | (_, Except.error e) :: _ => ([], some e)

/-! ## Weather feature engineering
(src/data_pipeline/processing/feature_engineering.py)

A dataframe column grouped by `region_name` is modelled as a list of
(region, value) rows in dataframe order. -/

/-- One grouped row: the `region_name` key and the numeric value of the base
column being lagged or rolled. -/
abbrev GroupedRows := List (String × ℚ)

/-- The chronological sequence of one group's values (the series
`df.groupby('region_name')[col]` restricted to group `g`). -/
def groupSeq (rows : GroupedRows) (g : String) : List ℚ :=
  (rows.filter (fun r => r.1 == g)).map Prod.snd

/-- The position of row `j` within its group: how many earlier rows share its
group key. -/
def groupPos (rows : GroupedRows) (j : ℕ) (g : String) : ℕ :=
  ((rows.take j).filter (fun r => r.1 == g)).length

/-- `df.groupby('region_name')[col].shift(k)` at row `j`, for the lags the code
uses (`k ∈ {1, 7, 30}`, all ≥ 1): the `k`-th most recent earlier value of the
same group, or missing (NaN) when fewer than `k` earlier same-group rows
exist. -/
def lagAt (rows : GroupedRows) (k : ℕ) (j : ℕ) : Option ℚ :=
  match rows[j]? with
  | none => none
  | some (g, _) =>
    let prior := ((rows.take j).filter (fun r => r.1 == g)).map Prod.snd
    prior.reverse[k - 1]?

/-- The whole lag-`k` column, before NaN imputation. -/
def lagColumnRaw (rows : GroupedRows) (k : ℕ) : List (Option ℚ) :=
  (List.range rows.length).map (lagAt rows k)

/-- Arithmetic mean of a list of rationals (`Series.mean` over non-NaN
values). -/
def listMean (xs : List ℚ) : ℚ :=
  xs.sum / xs.length

/-- `df.fillna(df.mean(numeric_only=True))` restricted to one column: every
missing value is replaced by the mean of the column's non-missing values,
computed from this same dataframe; a column with no non-missing values is left
unchanged (its mean is NaN, which fills nothing). -/
def fillnaMean (col : List (Option ℚ)) : List (Option ℚ) :=
  let vals := col.filterMap id
  if vals.isEmpty then col
  else col.map (fun o => some (o.getD (listMean vals)))

/-- The lag-`k` column after the imputation pass at the end of
`create_engineered_features`. -/
def lagColumnFilled (rows : GroupedRows) (k : ℕ) : List (Option ℚ) :=
  fillnaMean (lagColumnRaw rows k)

/-- `x.rolling(w, min_periods=1).mean()` within `df.groupby('region_name')`,
at row `j`: the mean of the trailing `min(w, position+1)` values of the row's
group, up to and including the row itself.  With `min_periods=1` at least the
row's own value is always available, so the result is never missing for a
valid row index. -/
def rollingMeanAt (rows : GroupedRows) (w : ℕ) (j : ℕ) : Option ℚ :=
  match rows[j]? with
  | none => none
  | some (g, _) =>
    let upto := ((rows.take (j + 1)).filter (fun r => r.1 == g)).map Prod.snd
    let window := upto.drop (upto.length - w)
    some (listMean window)

/-! ## Crop feature engineering
(src/data_pipeline/processing/crop_feature_engineering.py) -/

/-- A numeric column is sorted ascending for quantile computation. -/
def sortedCol (xs : List ℚ) : List ℚ :=
  xs.insertionSort (· ≤ ·)

/-- `Series.quantile(q)` with pandas' default linear interpolation: with
`n` values sorted ascending, the virtual index is `h = q·(n−1)`; the result
interpolates linearly between the values at `⌊h⌋` and the next index. -/
def interpQuantile (s : List ℚ) (q : ℚ) : ℚ :=
  let n := s.length
  let h : ℚ := q * ((n : ℚ) - 1)
  let f : ℕ := h.floor.toNat
  let lo := s.getD f 0
  let hi := s.getD (min (f + 1) (n - 1)) 0
  lo + (h - (f : ℚ)) * (hi - lo)

/-- `df[col].quantile(0.25)` on one column. -/
def q1Of (xs : List ℚ) : ℚ :=
  interpQuantile (sortedCol xs) (1 / 4)

/-- `df[col].quantile(0.75)` on one column. -/
def q3Of (xs : List ℚ) : ℚ :=
  interpQuantile (sortedCol xs) (3 / 4)

/-- `IQR = Q3 − Q1`. -/
def iqrOf (xs : List ℚ) : ℚ :=
  q3Of xs - q1Of xs

/-- `lower_bound = Q1 − 1.5·IQR`. -/
def lowerBoundOf (xs : List ℚ) : ℚ :=
  q1Of xs - 3 / 2 * iqrOf xs

/-- `upper_bound = Q3 + 1.5·IQR`. -/
def upperBoundOf (xs : List ℚ) : ℚ :=
  q3Of xs + 3 / 2 * iqrOf xs

/-- `Series.clip(lower, upper)`: values below `lower` become `lower`, values
above `upper` become `upper`. -/
def clip (lo hi x : ℚ) : ℚ :=
  min (max x lo) hi

/-- The sibling `{col}_capped` column emitted by
`CropFeatureEngineer.handle_outliers` for one numeric column: every value
clipped to the IQR bounds computed from this same column. -/
def cappedColumn (xs : List ℚ) : List ℚ :=
  xs.map (clip (lowerBoundOf xs) (upperBoundOf xs))

/-- `np.log1p`. -/
noncomputable def log1p (x : ℝ) : ℝ :=
  Real.log (1 + x)

/-- `CropFeatureEngineer.handle_extreme_scales` on one designated column
(`Area`, `Production`, `Fertilizer` or `Pesticide`): the `{col}_log` column is
`np.log1p` applied elementwise.  The `Except` return type records that the
step could in principle raise; the source performs no domain check and no
`raise` — negative inputs are transformed like any other value. -/
noncomputable def handleExtremeScalesCol (xs : List ℝ) : Except String (List ℝ) :=
  Except.ok (xs.map log1p)

/-! ## Concrete scenario data -/

/-- The spec's registry scenario: register `"rf_v1"` (test MSE 10.0) and
`"svr_v1"` (test MSE 20.0), both dataset `"weather"`. -/
def scenarioReg : Registry :=
  registerModel
    (registerModel [] "rf_v1" "RandomForestRegressor" [("test_mse", 10)]
      "models/rf.pkl" "weather" "rf baseline" "t1")
    "svr_v1" "SVR" [("test_mse", 20)] "models/svr.pkl" "weather" "svr baseline" "t2"

/-- An active `"weather"` entry with an empty metrics dict, for witnesses. -/
def bareEntry : Entry :=
  { name := "m", type := "SVR", dataset := "weather", path := "p",
    metrics := [], createdAt := "t", description := "", status := "active" }

/-- The spec's lag/rolling scenario: region `"A"` daily temperatures for
days 0–9. -/
def regionA : GroupedRows :=
  [("A", 10), ("A", 12), ("A", 14), ("A", 11), ("A", 13),
   ("A", 9), ("A", 15), ("A", 16), ("A", 12), ("A", 14)]

/-- The spec's capping scenario column. -/
def scenarioVals : List ℚ :=
  [1, 2, 2, 3, 3, 3, 4, 4, 5, 100]

/-- A two-row, one-group table separating the lag-column mean from the base
column mean. -/
def exRows : GroupedRows :=
  [("A", 1), ("A", 5)]

/-- An all-zero metric record, for harness counterexamples. -/
def zeroMetrics : Metrics :=
  { trainMse := 0, testMse := 0, trainR2 := 0, testR2 := 0,
    trainMae := 0, testMae := 0, cvMse := 0, cvStd := 0 }

/-! ## Helper lemmas: Python `min` -/

theorem foldlMin_mem {α : Type} (key : α → WithTop ℚ) (xs : List α) (x : α) :
    xs.foldl (fun acc y => if key y < key acc then y else acc) x = x ∨
      xs.foldl (fun acc y => if key y < key acc then y else acc) x ∈ xs := by
  induction xs generalizing x with
  | nil => exact Or.inl rfl
  | cons z zs ih =>
    simp only [List.foldl_cons]
    rcases ih (if key z < key x then z else x) with h | h
    · rw [h]
      by_cases hz : key z < key x
      · right
        simp [hz]
      · left
        simp [hz]
    · right
      exact List.mem_cons_of_mem _ h

theorem foldlMin_le {α : Type} (key : α → WithTop ℚ) (xs : List α) (x : α) :
    key (xs.foldl (fun acc y => if key y < key acc then y else acc) x) ≤ key x ∧
      ∀ b ∈ xs,
        key (xs.foldl (fun acc y => if key y < key acc then y else acc) x) ≤ key b := by
  induction xs generalizing x with
  | nil => simp
  | cons z zs ih =>
    simp only [List.foldl_cons]
    obtain ⟨h1, h2⟩ := ih (if key z < key x then z else x)
    have hx : key (if key z < key x then z else x) ≤ key x := by
      by_cases hz : key z < key x
      · simpa [hz] using le_of_lt hz
      · simp [hz]
    have hzle : key (if key z < key x then z else x) ≤ key z := by
      by_cases hz : key z < key x
      · simp [hz]
      · simpa [hz] using not_lt.mp hz
    refine ⟨h1.trans hx, ?_⟩
    intro b hb
    rcases List.mem_cons.mp hb with rfl | hb
    · exact h1.trans hzle
    · exact h2 b hb

theorem pyMin_eq_some_mem {α : Type} {key : α → WithTop ℚ} {l : List α} {a : α}
    (h : pyMin key l = some a) : a ∈ l := by
  cases l with
  | nil => simp [pyMin] at h
  | cons x xs =>
    simp only [pyMin, Option.some.injEq] at h
    rcases foldlMin_mem key xs x with h' | h'
    · rw [← h, h']
      exact List.mem_cons_self _ _
    · rw [← h]
      exact List.mem_cons_of_mem _ h'

theorem pyMin_eq_some_le {α : Type} {key : α → WithTop ℚ} {l : List α} {a : α}
    (h : pyMin key l = some a) : ∀ b ∈ l, key a ≤ key b := by
  cases l with
  | nil => simp [pyMin] at h
  | cons x xs =>
    simp only [pyMin, Option.some.injEq] at h
    obtain ⟨h1, h2⟩ := foldlMin_le key xs x
    intro b hb
    rcases List.mem_cons.mp hb with rfl | hb
    · rw [← h]; exact h1
    · rw [← h]; exact h2 b hb

theorem pyMin_isSome {α : Type} (key : α → WithTop ℚ) (l : List α) (h : l ≠ []) :
    (pyMin key l).isSome = true := by
  cases l with
  | nil => exact absurd rfl h
  | cons x xs => simp [pyMin]

theorem mem_listModels_iff {reg : Registry} {d : String} {p : String × Entry} :
    p ∈ listModels reg (some d) "active" ↔
      p ∈ reg ∧ p.2.status = "active" ∧ (d = "" ∨ p.2.dataset = d) := by
  simp only [listModels, List.mem_filter, statusPass, datasetPass, Bool.and_eq_true,
    Bool.or_eq_true, beq_iff_eq]
  have hne : ¬("active" = "") := by decide
  tauto

/-! ## Helper lemmas: grouped lags and rolling windows -/

theorem groupSeq_split (rows : GroupedRows) (j : ℕ) (g : String) :
    groupSeq rows g =
      ((rows.take j).filter (fun r => r.1 == g)).map Prod.snd ++
        ((rows.drop j).filter (fun r => r.1 == g)).map Prod.snd := by
  rw [groupSeq]
  conv_lhs => rw [← List.take_append_drop j rows]
  rw [List.filter_append, List.map_append]

theorem groupPos_eq_length (rows : GroupedRows) (j : ℕ) (g : String) :
    groupPos rows j g =
      (((rows.take j).filter (fun r => r.1 == g)).map Prod.snd).length := by
  rw [groupPos, List.length_map]

theorem prior_eq_take (rows : GroupedRows) (j : ℕ) (g : String) :
    ((rows.take j).filter (fun r => r.1 == g)).map Prod.snd =
      (groupSeq rows g).take (groupPos rows j g) := by
  rw [groupSeq_split rows j g, groupPos_eq_length, List.take_left]

theorem lt_length_of_getElem?_row {rows : GroupedRows} {j : ℕ} {g : String} {v : ℚ}
    (h : rows[j]? = some (g, v)) : j < rows.length := by
  by_contra hle
  rw [List.getElem?_eq_none (Nat.le_of_not_lt hle)] at h
  exact Option.noConfusion h

theorem take_filter_succ (rows : GroupedRows) {j : ℕ} {g : String} {v : ℚ}
    (h : rows[j]? = some (g, v)) :
    ((rows.take (j + 1)).filter (fun r => r.1 == g)).map Prod.snd =
      ((rows.take j).filter (fun r => r.1 == g)).map Prod.snd ++ [v] := by
  rw [List.take_succ, h]
  simp [List.filter_append]

theorem groupSeq_take_succ (rows : GroupedRows) {j : ℕ} {g : String} {v : ℚ}
    (h : rows[j]? = some (g, v)) :
    (groupSeq rows g).take (groupPos rows j g + 1) =
      ((rows.take j).filter (fun r => r.1 == g)).map Prod.snd ++ [v] := by
  have hj : j < rows.length := lt_length_of_getElem?_row h
  have hgv : rows[j] = (g, v) := by
    rw [List.getElem?_eq_getElem hj] at h
    exact Option.some.inj h
  rw [groupSeq_split rows j g, List.drop_eq_getElem_cons hj, hgv]
  simp only [List.filter_cons, beq_self_eq_true, if_pos, List.map_cons]
  rw [groupPos_eq_length, List.append_cons]
  exact List.take_left' (by simp)

theorem lagAt_spec (rows : GroupedRows) (k j : ℕ) (g : String) (v : ℚ)
    (hk : 1 ≤ k) (h : rows[j]? = some (g, v)) :
    (k ≤ groupPos rows j g →
      lagAt rows k j = (groupSeq rows g)[groupPos rows j g - k]?) ∧
    (groupPos rows j g < k → lagAt rows k j = none) := by
  have hpl : (((rows.take j).filter (fun r => r.1 == g)).map Prod.snd).length =
      groupPos rows j g := (groupPos_eq_length rows j g).symm
  simp only [lagAt, h]
  constructor
  · intro hki
    have h1 : k - 1 <
        (((rows.take j).filter (fun r => r.1 == g)).map Prod.snd).length := by
      omega
    rw [List.getElem?_reverse h1, hpl]
    have h2 : groupPos rows j g - 1 - (k - 1) = groupPos rows j g - k := by omega
    rw [h2, prior_eq_take rows j g,
      List.getElem?_take_of_lt (by omega : groupPos rows j g - k < groupPos rows j g)]
  · intro hik
    rw [List.getElem?_eq_none]
    simp only [List.length_reverse, hpl]
    omega

theorem rollingMeanAt_spec (rows : GroupedRows) (w j : ℕ) (g : String) (v : ℚ)
    (hw : 1 ≤ w) (h : rows[j]? = some (g, v)) :
    (groupPos rows j g = 0 → rollingMeanAt rows w j = some v) ∧
    (w ≤ groupPos rows j g + 1 →
      rollingMeanAt rows w j =
        some (listMean (((groupSeq rows g).take (groupPos rows j g + 1)).drop
          (groupPos rows j g + 1 - w))) ∧
      (((groupSeq rows g).take (groupPos rows j g + 1)).drop
          (groupPos rows j g + 1 - w)).length = w) := by
  have hup := take_filter_succ rows h
  have hgs := groupSeq_take_succ rows h
  have hpl : (((rows.take j).filter (fun r => r.1 == g)).map Prod.snd).length =
      groupPos rows j g := (groupPos_eq_length rows j g).symm
  have hlen : (((rows.take (j + 1)).filter (fun r => r.1 == g)).map Prod.snd).length =
      groupPos rows j g + 1 := by
    rw [hup, List.length_append, hpl]
    rfl
  simp only [rollingMeanAt, h]
  constructor
  · intro hi0
    have hprior : ((rows.take j).filter (fun r => r.1 == g)).map Prod.snd = [] := by
      rw [← List.length_eq_zero]
      omega
    rw [hup, hprior]
    simp [listMean, hw, Nat.sub_eq_zero_of_le hw]
  · intro hwle
    constructor
    · rw [hlen, hgs, ← hup]
    · rw [List.length_drop, List.length_take]
      have hglen : groupPos rows j g + 1 ≤ (groupSeq rows g).length := by
        have := congrArg List.length hgs
        rw [List.length_take, List.length_append, hpl] at this
        simp only [List.length_singleton] at this
        omega
      omega

/-! ## Helper lemmas: quantiles and capping -/

theorem ratFloor_eq_intFloor (q : ℚ) : q.floor = ⌊q⌋ :=
  rfl

theorem sorted_getD_le (s : List ℚ) (hs : s.Sorted (· ≤ ·)) {i j : ℕ}
    (hij : i ≤ j) (hj : j < s.length) : s.getD i 0 ≤ s.getD j 0 := by
  have hi : i < s.length := lt_of_le_of_lt hij hj
  rw [List.getD_eq_getElem s 0 hi, List.getD_eq_getElem s 0 hj]
  have h := hs.rel_get_of_le (a := ⟨i, hi⟩) (b := ⟨j, hj⟩) hij
  simpa using h

theorem interp_aux (s : List ℚ) (hs : s.Sorted (· ≤ ·)) {fx fy : ℕ} {x y : ℚ}
    (hfx2 : x ≤ (fx : ℚ) + 1) (hfy1 : (fy : ℚ) ≤ y)
    (hxy : x ≤ y) (hfxfy : fx ≤ fy) (hfyn : fy < s.length) :
    s.getD fx 0 + (x - (fx : ℚ)) *
        (s.getD (min (fx + 1) (s.length - 1)) 0 - s.getD fx 0) ≤
      s.getD fy 0 + (y - (fy : ℚ)) *
        (s.getD (min (fy + 1) (s.length - 1)) 0 - s.getD fy 0) := by
  have hfxn : fx < s.length := lt_of_le_of_lt hfxfy hfyn
  have hlohix : s.getD fx 0 ≤ s.getD (min (fx + 1) (s.length - 1)) 0 :=
    sorted_getD_le s hs (le_min (by omega) (by omega))
      (lt_of_le_of_lt (min_le_right _ _) (by omega))
  have hlohiy : s.getD fy 0 ≤ s.getD (min (fy + 1) (s.length - 1)) 0 :=
    sorted_getD_le s hs (le_min (by omega) (by omega))
      (lt_of_le_of_lt (min_le_right _ _) (by omega))
  rcases eq_or_lt_of_le hfxfy with rfl | hlt
  · have h := mul_le_mul_of_nonneg_right
      (sub_le_sub_right hxy (fx : ℚ))
      (sub_nonneg.mpr hlohix)
    linarith
  · have hvalx : s.getD fx 0 + (x - (fx : ℚ)) *
        (s.getD (min (fx + 1) (s.length - 1)) 0 - s.getD fx 0) ≤
          s.getD (min (fx + 1) (s.length - 1)) 0 := by
      have h := mul_le_mul_of_nonneg_right
        (show x - (fx : ℚ) ≤ 1 by linarith)
        (sub_nonneg.mpr hlohix)
      linarith
    have hmid : s.getD (min (fx + 1) (s.length - 1)) 0 ≤ s.getD fy 0 :=
      sorted_getD_le s hs (le_trans (min_le_left _ _) (by omega)) hfyn
    have hvaly : s.getD fy 0 ≤ s.getD fy 0 + (y - (fy : ℚ)) *
        (s.getD (min (fy + 1) (s.length - 1)) 0 - s.getD fy 0) := by
      have h := mul_nonneg
        (sub_nonneg.mpr hfy1)
        (sub_nonneg.mpr hlohiy)
      linarith
    linarith

theorem interpQuantile_mono (s : List ℚ) (hs : s.Sorted (· ≤ ·)) (hne : s ≠ [])
    {a b : ℚ} (h0 : 0 ≤ a) (hab : a ≤ b) (hb1 : b ≤ 1) :
    interpQuantile s a ≤ interpQuantile s b := by
  have hn : 1 ≤ s.length := List.length_pos.mpr hne
  have hn1 : (0 : ℚ) ≤ (s.length : ℚ) - 1 := by
    have h1 : (1 : ℚ) ≤ (s.length : ℚ) := by exact_mod_cast hn
    linarith
  have hA0 : (0 : ℚ) ≤ a * ((s.length : ℚ) - 1) := mul_nonneg h0 hn1
  have hB0 : (0 : ℚ) ≤ b * ((s.length : ℚ) - 1) := mul_nonneg (h0.trans hab) hn1
  have hABle : a * ((s.length : ℚ) - 1) ≤ b * ((s.length : ℚ) - 1) :=
    mul_le_mul_of_nonneg_right hab hn1
  have hBn : b * ((s.length : ℚ) - 1) ≤ (s.length : ℚ) - 1 := by
    have h := mul_le_mul_of_nonneg_right hb1 hn1
    simpa using h
  have hfAZ : ((a * ((s.length : ℚ) - 1)).floor.toNat : ℤ) =
      ⌊a * ((s.length : ℚ) - 1)⌋ := by
    rw [ratFloor_eq_intFloor]
    exact Int.toNat_of_nonneg (Int.floor_nonneg.mpr hA0)
  have hfBZ : ((b * ((s.length : ℚ) - 1)).floor.toNat : ℤ) =
      ⌊b * ((s.length : ℚ) - 1)⌋ := by
    rw [ratFloor_eq_intFloor]
    exact Int.toNat_of_nonneg (Int.floor_nonneg.mpr hB0)
  have hfx2 : a * ((s.length : ℚ) - 1) ≤
      (((a * ((s.length : ℚ) - 1)).floor.toNat : ℕ) : ℚ) + 1 := by
    have h : a * ((s.length : ℚ) - 1) <
        (((a * ((s.length : ℚ) - 1)).floor.toNat : ℤ) : ℚ) + 1 := by
      rw [hfAZ]
      exact Int.lt_floor_add_one _
    have h' := le_of_lt h
    exact_mod_cast h'
  have hfy1 : (((b * ((s.length : ℚ) - 1)).floor.toNat : ℕ) : ℚ) ≤
      b * ((s.length : ℚ) - 1) := by
    have h : (((b * ((s.length : ℚ) - 1)).floor.toNat : ℤ) : ℚ) ≤
        b * ((s.length : ℚ) - 1) := by
      rw [hfBZ]
      exact Int.floor_le _
    exact_mod_cast h
  have hfxfy : (a * ((s.length : ℚ) - 1)).floor.toNat ≤
      (b * ((s.length : ℚ) - 1)).floor.toNat := by
    rw [ratFloor_eq_intFloor, ratFloor_eq_intFloor]
    exact Int.toNat_le_toNat (Int.floor_le_floor hABle)
  have hfyn : (b * ((s.length : ℚ) - 1)).floor.toNat < s.length := by
    have h1 : b * ((s.length : ℚ) - 1) ≤ (((s.length - 1 : ℕ) : ℤ) : ℚ) := by
      push_cast [Nat.cast_sub hn] at hBn ⊢
      linarith
    have h2 : ⌊b * ((s.length : ℚ) - 1)⌋ ≤ ((s.length - 1 : ℕ) : ℤ) := by
      have h := Int.floor_le_floor h1
      rwa [Int.floor_intCast] at h
    rw [ratFloor_eq_intFloor]
    omega
  simp only [interpQuantile]
  exact interp_aux s hs hfx2 hfy1 hABle hfxfy hfyn

theorem q1Of_le_q3Of (xs : List ℚ) (hne : xs ≠ []) : q1Of xs ≤ q3Of xs := by
  have hs : (sortedCol xs).Sorted (· ≤ ·) := List.sorted_insertionSort _ xs
  have hlen : (sortedCol xs).length = xs.length := List.length_insertionSort _ xs
  have hne' : sortedCol xs ≠ [] := by
    intro h
    apply hne
    rw [← List.length_eq_zero, ← hlen, h]
    rfl
  exact interpQuantile_mono (sortedCol xs) hs hne'
    (by norm_num) (by norm_num) (by norm_num)

theorem lower_le_upper (xs : List ℚ) (hne : xs ≠ []) :
    lowerBoundOf xs ≤ upperBoundOf xs := by
  have h := q1Of_le_q3Of xs hne
  rw [lowerBoundOf, upperBoundOf, iqrOf]
  linarith

end Annadata

namespace Annadata

/-! ## Claim theorems -/

/-- C1 (amended): for every registry and every *nonempty* dataset string,
`get_best_model(dataset, metric)` returns an entry of the registry that is
active, belongs to `dataset`, and whose metric value (missing keys reading as
`+∞`) is minimal among all active entries of that dataset; it returns the
not-found signal when no active entry for the dataset exists.  In the
scenario with `"rf_v1"` (test MSE 10.0) and `"svr_v1"` (test MSE 20.0) it
returns `"rf_v1"`. -/
theorem c1_get_best_min :
    (∀ (reg : Registry) (d metric : String), d ≠ "" →
      (∀ (n : String) (e : Entry), getBestModel reg d metric = some (n, e) →
        (n, e) ∈ reg ∧ e.status = "active" ∧ e.dataset = d ∧
          ∀ p ∈ reg, p.2.status = "active" → p.2.dataset = d →
            metricValue e metric ≤ metricValue p.2 metric) ∧
      ((∀ p ∈ reg, ¬(p.2.status = "active" ∧ p.2.dataset = d)) →
        getBestModel reg d metric = none)) ∧
    (getBestModel scenarioReg "weather" "test_mse").map Prod.fst = some "rf_v1" := by
  constructor
  · intro reg d metric hd
    constructor
    · intro n e h
      have hmem : (n, e) ∈ listModels reg (some d) "active" :=
        pyMin_eq_some_mem h
      obtain ⟨hr, hs, hds⟩ := mem_listModels_iff.mp hmem
      refine ⟨hr, hs, hds.resolve_left hd, ?_⟩
      intro p hp hps hpd
      exact pyMin_eq_some_le h p (mem_listModels_iff.mpr ⟨hp, hps, Or.inr hpd⟩)
    · intro hnone
      have : listModels reg (some d) "active" = [] := by
        simp only [listModels]
        rw [List.filter_eq_nil_iff]
        intro p hp
        intro hpass
        have := mem_listModels_iff.mp (List.mem_filter.mpr ⟨hp, hpass⟩)
        exact hnone p hp ⟨this.2.1, this.2.2.resolve_left hd⟩
      rw [getBestModel, this]
      rfl
  · decide

/-- C1 witness: the theorem applied at the empty registry and dataset
`"weather"`. -/
theorem c1_witness : getBestModel [] "weather" "test_mse" = none :=
  (c1_get_best_min.1 [] "weather" "test_mse" (by decide)).2 (by simp)

/-- C1 counterexample: as literally stated ("for every registry state and
dataset"), the claim fails for the empty dataset string: Python string
truthiness disables the dataset filter in `list_models`, so
`get_best_model("")` returns an entry whose dataset field is `"weather"`,
not `""`. -/
theorem c1_counterexample :
    ∃ e : Entry, getBestModel [("m", bareEntry)] "" "test_mse" = some ("m", e) ∧
      e.dataset ≠ "" := by
  refine ⟨bareEntry, by decide, by decide⟩

/-- C9: in `get_best_model`, an active entry whose metrics dict lacks the
requested metric key reads as `float('inf')`; and whenever at least one
active entry for the dataset exists, `get_best_model` returns an entry
(never the not-found signal), whether or not any entry carries the metric. -/
theorem c9_missing_metric_inf :
    (∀ (e : Entry) (metric : String), e.metrics.lookup metric = none →
      metricValue e metric = ⊤) ∧
    (∀ (reg : Registry) (d metric : String),
      (∃ p ∈ reg, p.2.status = "active" ∧ p.2.dataset = d) →
      (getBestModel reg d metric).isSome = true) := by
  constructor
  · intro e metric h
    simp [metricValue, h]
  · intro reg d metric ⟨p, hp, hs, hd⟩
    apply pyMin_isSome
    intro hnil
    have : p ∈ listModels reg (some d) "active" :=
      mem_listModels_iff.mpr ⟨hp, hs, Or.inr hd⟩
    rw [hnil] at this
    exact List.not_mem_nil p this

/-- C9 witness: a registry whose single active `"weather"` entry has an empty
metrics dict still yields a best model, and the missing metric reads as
`+∞`. -/
theorem c9_witness :
    metricValue bareEntry "test_mse" = ⊤ ∧
      (getBestModel [("m", bareEntry)] "weather" "test_mse").isSome = true :=
  ⟨c9_missing_metric_inf.1 bareEntry "test_mse" rfl,
   c9_missing_metric_inf.2 [("m", bareEntry)] "weather" "test_mse"
     ⟨("m", bareEntry), by simp, rfl, rfl⟩⟩

/-- C10: when the registry document exists but fails to parse, `load_registry`
catches the exception and returns the empty registry; a subsequent
`register_model` therefore persists a document holding exactly the one new
entry, discarding everything previously stored. -/
theorem c10_corrupt_registry_reset :
    loadRegistry (some none) = [] ∧
    ∀ (modelName modelType : String) (metrics : List (String × ℚ))
      (modelPath dataset description createdAt : String),
      registerModel (loadRegistry (some none)) modelName modelType metrics
          modelPath dataset description createdAt =
        [(modelName,
          { name := modelName, type := modelType, dataset := dataset,
            path := modelPath, metrics := metrics, createdAt := createdAt,
            description := description, status := "active" })] := by
  refine ⟨rfl, ?_⟩
  intro modelName modelType metrics modelPath dataset description createdAt
  simp [registerModel, dictInsert, loadRegistry]

/-- C2 (amended): a mismatch between the embedding width (`num_qubits`) and
the compressed dimensionality (`target_features`) is silently reconciled in
the constructor by setting `num_qubits := target_features`; construction
always succeeds and never raises a ConfigurationError. -/
theorem c2_mismatch_reconciled :
    ∀ (numQubits featureMapReps ansatzReps maxIterations : ℕ)
      (featureCompression : Bool) (targetFeatures : ℕ),
      initQCYR numQubits featureMapReps ansatzReps maxIterations
          featureCompression targetFeatures =
        Except.ok
          { numQubits := targetFeatures
            featureMapReps := featureMapReps
            ansatzReps := ansatzReps
            maxIterations := maxIterations
            featureCompression := featureCompression
            targetFeatures := targetFeatures
            vqr := none
            pca := none
            trainingTime := 0 } := by
  intro nq fmr ar mi fc tf
  by_cases h : nq = tf <;> simp [initQCYR, h]

/-- C2 counterexample: configuring the estimator with embedding width 4 and
target dimensionality 6 does not raise; it succeeds with `num_qubits`
silently overwritten to 6. -/
theorem c2_counterexample :
    initQCYR 4 1 1 200 true 6 =
      Except.ok
        { numQubits := 6, featureMapReps := 1, ansatzReps := 1,
          maxIterations := 200, featureCompression := true,
          targetFeatures := 6, vqr := none, pca := none, trainingTime := 0 } := by
  rfl

/-- C3 (amended): when one estimator in the roster fails during fit or
evaluation, the exception is logged and re-raised, aborting the remaining
batch: estimators after the failing one are neither trained nor evaluated,
and only the results recorded before the failure survive. -/
theorem c3_failure_aborts_batch :
    ∀ (pre : List (String × Metrics)) (name err : String)
      (post : List (String × Except String Metrics)),
      trainAndEvaluate
          (pre.map (fun p => (p.1, Except.ok p.2)) ++
            (name, Except.error err) :: post) =
        (pre, some err) := by
  intro pre name err post
  induction pre with
  | nil => simp [trainAndEvaluate]
  | cons p ps ih => simp [trainAndEvaluate, ih]

/-- C3 counterexample: if the first estimator (`linear_regression`) fails,
the whole batch aborts with its exception and the remaining estimators
(`random_forest`, `svr`) produce no results, contradicting the claimed
failure isolation. -/
theorem c3_counterexample :
    trainAndEvaluate
        [("linear_regression", Except.error "fit failed"),
         ("random_forest", Except.ok zeroMetrics),
         ("svr", Except.ok zeroMetrics)] =
      ([], some "fit failed") := by
  rfl

/-- C8 (amended): the alternate estimator's `predict` before training is a
hard error (`ValueError("Model not trained")`), but the dimensionality
compressor's transform before fit is a silent pass-through:
`compress_features(X, fit=False)` with no fitted PCA returns `X`
untransformed and raises nothing. -/
theorem c8_unfitted_behaviour :
    (∀ (fitPCA : Mat → PCAFun × Mat) (X : Mat),
      compressFeatures fitPCA true none X false = (none, X)) ∧
    (∀ (pipeline : Mat → Mat) (X : Mat),
      qcyrPredict none pipeline X = Except.error "Model not trained") := by
  exact ⟨fun _ _ => rfl, fun _ _ => rfl⟩

/-- C8 counterexample: transforming before fit on a concrete matrix returns
the matrix unchanged instead of raising a StateError. -/
theorem c8_counterexample :
    compressFeatures (fun X => (id, X)) true none [[1, 2]] false =
      (none, [[1, 2]]) := by
  rfl

/-- C7: per group, the rolling mean with window `w` and `min_periods=1` equals
the record's own value at the first record of its group, and from the `w`-th
record onward equals the arithmetic mean of the trailing `w` values of the
group's chronological sequence; for region `"A"` temperatures
`[10,12,14,11,13,9,15,16,12,14]`, the rolling 7-day mean at day 6 is 12. -/
theorem c7_rolling_mean :
    (∀ (rows : GroupedRows) (w j : ℕ) (g : String) (v : ℚ),
      1 ≤ w → rows[j]? = some (g, v) →
      (groupPos rows j g = 0 → rollingMeanAt rows w j = some v) ∧
      (w ≤ groupPos rows j g + 1 →
        rollingMeanAt rows w j =
          some (listMean (((groupSeq rows g).take (groupPos rows j g + 1)).drop
            (groupPos rows j g + 1 - w))) ∧
        (((groupSeq rows g).take (groupPos rows j g + 1)).drop
            (groupPos rows j g + 1 - w)).length = w)) ∧
    rollingMeanAt regionA 7 6 = some 12 := by
  refine ⟨fun rows w j g v hw h => rollingMeanAt_spec rows w j g v hw h, ?_⟩
  norm_num [rollingMeanAt, regionA, listMean]

/-- C7 witness: the theorem applied at the scenario data, day 0 (first record
of group `"A"`): the rolling mean is the record's own value, 10. -/
theorem c7_witness : rollingMeanAt regionA 7 0 = some 10 :=
  (c7_rolling_mean.1 regionA 7 0 "A" 10 (by norm_num) rfl).1 rfl

/-- C4 (amended): within each group, the lag-`k` feature at group position
`i` equals the raw base value at position `i−k` for `i ≥ k` and is missing
for `i < k`; the subsequent imputation pass fills missing entries with the
mean of the *non-missing lag-column entries of the dataframe being
transformed* (recomputed on every call), not with a persisted training-set
mean of the base column. -/
theorem c4_lag_imputed :
    ∀ (rows : GroupedRows) (k j : ℕ) (g : String) (v : ℚ),
      1 ≤ k → rows[j]? = some (g, v) →
      (k ≤ groupPos rows j g →
        lagAt rows k j = (groupSeq rows g)[groupPos rows j g - k]?) ∧
      (groupPos rows j g < k → lagAt rows k j = none) ∧
      ((lagColumnRaw rows k).filterMap id ≠ [] →
        (lagColumnFilled rows k)[j]? =
          some (some ((lagAt rows k j).getD
            (listMean ((lagColumnRaw rows k).filterMap id))))) := by
  intro rows k j g v hk h
  obtain ⟨h1, h2⟩ := lagAt_spec rows k j g v hk h
  refine ⟨h1, h2, ?_⟩
  intro hvals
  have hj : j < rows.length := lt_length_of_getElem?_row h
  have hraw : (lagColumnRaw rows k)[j]? = some (lagAt rows k j) := by
    simp [lagColumnRaw, List.getElem?_range, hj]
  rw [lagColumnFilled, fillnaMean]
  have hne : ((lagColumnRaw rows k).filterMap id).isEmpty = false := by
    simpa [List.isEmpty_iff] using hvals
  simp only [hne, Bool.false_eq_true, if_false, List.getElem?_map, hraw]
  rfl

/-- C4 witness: the theorem applied at the two-row group `[("A",1),("A",5)]`
with lag 1 at row 1 (group position 1 ≥ k): the lag equals the group's value
at position 0. -/
theorem c4_witness :
    lagAt exRows 1 1 = (groupSeq exRows "A")[groupPos exRows 1 "A" - 1]? :=
  (c4_lag_imputed exRows 1 1 "A" 5 (by norm_num) rfl).1 (by decide)

/-- C5 (amended): the capped column keeps every value within
`[Q1 − 1.5·IQR, Q3 + 1.5·IQR]`, with quantiles computed by pandas' default
linear interpolation over the same reference column; for the scenario data
`[1,2,2,3,3,3,4,4,5,100]` this gives Q1 = 2.25, Q3 = 4, IQR = 1.75, bounds
[−0.375, 6.625], and the capped value for 100 is 6.625 (not 7). -/
theorem c5_capping_bounds :
    (∀ (xs : List ℚ) (v : ℚ), v ∈ cappedColumn xs →
      lowerBoundOf xs ≤ v ∧ v ≤ upperBoundOf xs) ∧
    q1Of scenarioVals = 9 / 4 ∧ q3Of scenarioVals = 4 ∧
    iqrOf scenarioVals = 7 / 4 ∧
    lowerBoundOf scenarioVals = -(3 / 8) ∧
    upperBoundOf scenarioVals = 53 / 8 ∧
    clip (lowerBoundOf scenarioVals) (upperBoundOf scenarioVals) 100 = 53 / 8 := by
  have ht2 : Int.toNat 2 = 2 := rfl
  have ht6 : Int.toNat 6 = 6 := rfl
  have hq1 : q1Of scenarioVals = 9 / 4 := by
    norm_num [q1Of, scenarioVals, sortedCol, interpQuantile, List.insertionSort,
      List.orderedInsert, ratFloor_eq_intFloor, ht2]
  have hq3 : q3Of scenarioVals = 4 := by
    norm_num [q3Of, scenarioVals, sortedCol, interpQuantile, List.insertionSort,
      List.orderedInsert, ratFloor_eq_intFloor, ht6]
  have hiqr : iqrOf scenarioVals = 7 / 4 := by
    rw [iqrOf, hq1, hq3]
    norm_num
  have hlo : lowerBoundOf scenarioVals = -(3 / 8) := by
    rw [lowerBoundOf, hq1, hiqr]
    norm_num
  have hhi : upperBoundOf scenarioVals = 53 / 8 := by
    rw [upperBoundOf, hq3, hiqr]
    norm_num
  refine ⟨?_, hq1, hq3, hiqr, hlo, hhi, ?_⟩
  · intro xs v hv
    obtain ⟨x, hx, rfl⟩ := List.mem_map.mp hv
    have hne : xs ≠ [] := by
      intro h
      rw [h] at hx
      exact List.not_mem_nil x hx
    have hlu := lower_le_upper xs hne
    constructor
    · exact le_min (le_max_right _ _) hlu
    · exact min_le_right _ _
  · rw [hlo, hhi, clip]
    norm_num

/-- C5 witness: the theorem's bound property applied to the singleton column
`[0]`, whose capped value 0 lies within its (degenerate) bounds. -/
theorem c5_witness :
    lowerBoundOf [(0 : ℚ)] ≤ 0 ∧ (0 : ℚ) ≤ upperBoundOf [(0 : ℚ)] :=
  c5_capping_bounds.1 [(0 : ℚ)] 0
    (by norm_num [cappedColumn, clip, lowerBoundOf, upperBoundOf, iqrOf, q1Of, q3Of,
      sortedCol, interpQuantile, List.insertionSort, List.orderedInsert,
      ratFloor_eq_intFloor])

/-- C5 counterexample: for `[1,2,2,3,3,3,4,4,5,100]` the code's Q1 is 2.25
(pandas linear interpolation), not 2, and the capped value for 100 is 6.625,
not 7 as the claim states. -/
theorem c5_counterexample :
    q1Of scenarioVals = 9 / 4 ∧ (9 / 4 : ℚ) ≠ 2 ∧
      (cappedColumn scenarioVals)[9]? = some (53 / 8) ∧ (53 / 8 : ℚ) ≠ 7 := by
  have ht2 : Int.toNat 2 = 2 := rfl
  have ht6 : Int.toNat 6 = 6 := rfl
  refine ⟨?_, by norm_num, ?_, by norm_num⟩
  · norm_num [q1Of, scenarioVals, sortedCol, interpQuantile, List.insertionSort,
      List.orderedInsert, ratFloor_eq_intFloor, ht2]
  · norm_num [cappedColumn, clip, lowerBoundOf, upperBoundOf, iqrOf, q1Of, q3Of,
      scenarioVals, sortedCol, interpQuantile, List.insertionSort, List.orderedInsert,
      ratFloor_eq_intFloor, ht2, ht6]

/-- C6 (amended): the scale-compression step applies `np.log1p` to each
designated column unconditionally — it performs no domain check and never
raises on negative values (there is no DataError path); for non-negative
inputs the transform satisfies `log1p(0) = 0`, `log1p(x) ≥ 0`, and is
monotonically non-decreasing. -/
theorem c6_log1p :
    (∀ xs : List ℝ, handleExtremeScalesCol xs = Except.ok (xs.map log1p)) ∧
    log1p 0 = 0 ∧
    (∀ x : ℝ, 0 ≤ x → 0 ≤ log1p x) ∧
    (∀ x y : ℝ, 0 ≤ x → x ≤ y → log1p x ≤ log1p y) := by
  refine ⟨fun _ => rfl, ?_, ?_, ?_⟩
  · simp [log1p]
  · intro x hx
    exact Real.log_nonneg (by linarith)
  · intro x y hx hxy
    exact (Real.log_le_log_iff (by linarith) (by linarith)).mpr (by linarith)

/-- C6 witness: the theorem applied at 0 and 1: `log1p 0 = 0 ≤ log1p 1`. -/
theorem c6_witness : log1p 0 = 0 ∧ log1p 0 ≤ log1p 1 :=
  ⟨c6_log1p.2.1, c6_log1p.2.2.2 0 1 (by norm_num) (by norm_num)⟩

/-- C6 counterexample: a column containing the negative value −5 is
transformed without any error — `handle_extreme_scales` returns normally
instead of failing with a DataError. -/
theorem c6_counterexample :
    handleExtremeScalesCol [(-5 : ℝ)] = Except.ok [log1p (-5)] := by
  rfl

/-- C4 counterexample: for the single-group table with base values `[1, 5]`,
the filled lag-1 value at position 0 is 1 (the mean of the non-missing lag
entries, `[1]`), while the training-set mean of the base column is 3 — the
imputed value is not the base column's mean as the claim states. -/
theorem c4_counterexample :
    (lagColumnFilled exRows 1)[0]? = some (some 1) ∧
      listMean (exRows.map Prod.snd) = 3 ∧ (1 : ℚ) ≠ 3 := by
  refine ⟨?_, ?_, by norm_num⟩
  · have hraw : lagColumnRaw exRows 1 = [none, some 1] := by decide
    rw [lagColumnFilled, hraw]
    norm_num [fillnaMean, listMean, List.filterMap_cons]
  · norm_num [listMean, exRows]

end Annadata
